import Mathlib

/-!
Verification of the flyer lifecycle and enrichment pipeline
(`combined_pdf_scrapper.py`, `leaflet_downloader.py`, `data_enricher.py`,
`new_gem_catego_2.py`).

Python semantics are shallowly embedded:
* `datetime.date` values are triples of integers validated exactly as the
  `date` constructor validates them (`mkDate`); comparison is lexicographic,
  which agrees with chronological order on valid dates.
* raised exceptions are modelled with `Except Unit`;
* `re.findall(r'(\d{1,2})\.(\d{1,2})\.?(\d{4})?', s)` is modelled by a
  left-to-right scanner (`findAll`) that reproduces the backtracking
  behaviour of the pattern (greedy day, forced dot, greedy month, optional
  dot, optional 4-digit year); `\d` is modelled on the ASCII fragment.
-/

set_option maxRecDepth 10000

namespace OcrDiscount

/-- Value of an ASCII digit character. -/
def digitVal (c : Char) : Nat := c.toNat - 48

/-- Gregorian leap-year test, as used by Python's `datetime`. -/
def isLeapYear (y : Int) : Bool :=
  y % 4 == 0 && (y % 100 != 0 || y % 400 == 0)

/-- Number of days in a month, as validated by `datetime.date`. -/
def daysInMonth (y m : Int) : Int :=
  if m = 2 then (if isLeapYear y then 29 else 28)
  else if m = 4 ∨ m = 6 ∨ m = 9 ∨ m = 11 then 30
  else 31

/-- Model of `datetime.date`: a year/month/day triple.  Only values accepted
by the `date` constructor are ever produced (see `mkDate`). -/
structure PyDate where
  year : Int
  month : Int
  day : Int
deriving DecidableEq, Repr

instance : Inhabited PyDate := ⟨⟨1, 1, 1⟩⟩

/-- Model of the `date(y, m, d)` constructor: `some` on a valid calendar
date, `none` where Python raises `ValueError` (year outside 1..9999, month
outside 1..12, day outside the month). -/
def mkDate (y m d : Int) : Option PyDate :=
  if 1 ≤ y ∧ y ≤ 9999 ∧ 1 ≤ m ∧ m ≤ 12 ∧ 1 ≤ d ∧ d ≤ daysInMonth y m then
    some ⟨y, m, d⟩
  else none

/-- Model of `date < date`: lexicographic comparison of the triples, which is
chronological order on valid dates. -/
def pyLt (a b : PyDate) : Bool :=
  decide (a.year < b.year) ||
    (decide (a.year = b.year) &&
      (decide (a.month < b.month) ||
        (decide (a.month = b.month) && decide (a.day < b.day))))

/-- Model of `date <= date` / `date >= date` (with arguments flipped). -/
def pyLe (a b : PyDate) : Bool := pyLt a b || a == b

/-! ## The date regular expression of `parse_hofer_dates`

`re.findall(r'(\d{1,2})\.(\d{1,2})\.?(\d{4})?', duration_str)` scans the
string left to right for non-overlapping matches.  At a given position the
pattern engine first tries a two-digit day (which then requires a literal
dot right after), falling back to a one-digit day followed by a dot; the
month takes two digits when available, else one; a following dot is consumed
when present; a year group is consumed exactly when the next four
characters are digits. -/

/-- One regex date match: the day group, the month group, and the optional
four-digit year group. -/
structure DateMatch where
  day : Nat
  month : Nat
  yearOpt : Option Nat
deriving DecidableEq, Repr

/-- Greedy `(\d{1,2})` for the month group (nothing after it can fail, so it
never backtracks): two digits when available, else one. -/
def readMonth : List Char → Option (Nat × List Char)
  | [] => none
  | [c] => if c.isDigit then some (digitVal c, []) else none
  | c :: c2 :: r2 =>
    if c.isDigit then
      if c2.isDigit then some (digitVal c * 10 + digitVal c2, r2)
      else some (digitVal c, c2 :: r2)
    else none

/-- Greedy `\.?`. -/
def skipDot : List Char → List Char
  | [] => []
  | c :: r => if c = '.' then r else c :: r

/-- Greedy `(\d{4})?`: consumed exactly when the next four characters are
digits. -/
def readYear4 : List Char → Option Nat × List Char
  | y1 :: y2 :: y3 :: y4 :: r =>
    if y1.isDigit && y2.isDigit && y3.isDigit && y4.isDigit then
      (some (digitVal y1 * 1000 + digitVal y2 * 100 + digitVal y3 * 10 + digitVal y4), r)
    else (none, y1 :: y2 :: y3 :: y4 :: r)
  | s => (none, s)

/-- After the day group and its dot: month group, optional dot, optional
year group. -/
def matchTail (day : Nat) (s : List Char) : Option (DateMatch × List Char) :=
  match readMonth s with
  | none => none
  | some (m, r2) =>
    let p := readYear4 (skipDot r2)
    some (⟨day, m, p.1⟩, p.2)

/-- One-digit-day alternative: `\d\.` then the tail. -/
def matchOne : List Char → Option (DateMatch × List Char)
  | c1 :: c2 :: rest =>
    if c1.isDigit && c2 = '.' then matchTail (digitVal c1) rest else none
  | _ => none

/-- Attempt to match the whole pattern at the head of `s`: two-digit day
first, backtracking to the one-digit day on failure. -/
def matchAt (s : List Char) : Option (DateMatch × List Char) :=
  match s with
  | c1 :: c2 :: c3 :: rest =>
    if c1.isDigit && c2.isDigit && c3 = '.' then
      match matchTail (digitVal c1 * 10 + digitVal c2) rest with
      | some r => some r
      | none => matchOne s
    else matchOne s
  | _ => matchOne s

/-- Non-overlapping left-to-right scan, with a fuel argument for structural
recursion; `s.length` fuel is always sufficient because every match consumes
at least one character (`matchAt_length`). -/
def findAllFuel : Nat → List Char → List DateMatch
  | 0, _ => []
  | _ + 1, [] => []
  | fuel + 1, c :: rest =>
    match matchAt (c :: rest) with
    | some (m, r) => m :: findAllFuel fuel r
    | none => findAllFuel fuel rest

/-- Model of `re.findall(r'(\d{1,2})\.(\d{1,2})\.?(\d{4})?', s)`. -/
def findAll (s : List Char) : List DateMatch := findAllFuel s.length s

theorem readMonth_length {s : List Char} {m : Nat} {r : List Char}
    (h : readMonth s = some (m, r)) : r.length < s.length := by
  match s with
  | [] => simp [readMonth] at h
  | [c] =>
    simp only [readMonth] at h
    split at h <;> simp_all
  | c :: c2 :: r2 =>
    simp only [readMonth] at h
    split at h
    · split at h <;> simp_all <;> omega
    · simp_all

theorem skipDot_length (s : List Char) : (skipDot s).length ≤ s.length := by
  match s with
  | [] => simp [skipDot]
  | c :: r =>
    simp only [skipDot]
    split <;> simp

theorem readYear4_length (s : List Char) : (readYear4 s).2.length ≤ s.length := by
  match s with
  | y1 :: y2 :: y3 :: y4 :: r =>
    simp only [readYear4]
    split <;> simp <;> omega
  | [] => simp [readYear4]
  | [a] => simp [readYear4]
  | [a, b] => simp [readYear4]
  | [a, b, c] => simp [readYear4]

theorem matchTail_length {day : Nat} {s : List Char} {m : DateMatch}
    {r : List Char} (h : matchTail day s = some (m, r)) : r.length < s.length := by
  unfold matchTail at h
  cases hm : readMonth s with
  | none => simp [hm] at h
  | some p =>
    obtain ⟨mo, r2⟩ := p
    simp only [hm] at h
    have h1 := readMonth_length hm
    have h2 := skipDot_length r2
    have h3 := readYear4_length (skipDot r2)
    cases h
    omega

theorem matchOne_length {s : List Char} {m : DateMatch} {r : List Char}
    (h : matchOne s = some (m, r)) : r.length < s.length := by
  match s with
  | [] => simp [matchOne] at h
  | [c] => simp [matchOne] at h
  | c1 :: c2 :: rest =>
    simp only [matchOne] at h
    split at h
    · have := matchTail_length h
      simp only [List.length_cons]
      omega
    · simp_all

theorem matchAt_length {s : List Char} {m : DateMatch} {r : List Char}
    (h : matchAt s = some (m, r)) : r.length < s.length := by
  match s with
  | [] => exact matchOne_length h
  | [c] => exact matchOne_length h
  | [c, c2] => exact matchOne_length h
  | c1 :: c2 :: c3 :: rest =>
    simp only [matchAt] at h
    split at h
    · cases ht : matchTail (digitVal c1 * 10 + digitVal c2) rest with
      | none => rw [ht] at h; exact matchOne_length h
      | some p =>
        rw [ht] at h
        cases h
        have := matchTail_length ht
        simp only [List.length_cons]
        omega
    · exact matchOne_length h

/-- The fuel in `findAll` is irrelevant as long as it dominates the length
of the string: the scan is the unbounded one. -/
theorem findAllFuel_congr :
    ∀ (f1 f2 : Nat) (s : List Char), s.length ≤ f1 → s.length ≤ f2 →
      findAllFuel f1 s = findAllFuel f2 s := by
  intro f1
  induction f1 with
  | zero =>
    intro f2 s h1 _
    have : s = [] := List.length_eq_zero.mp (Nat.le_zero.mp h1)
    subst this
    cases f2 <;> simp [findAllFuel]
  | succ n ih =>
    intro f2 s h1 h2
    cases s with
    | nil => cases f2 <;> simp [findAllFuel]
    | cons c rest =>
      cases f2 with
      | zero => simp at h2
      | succ n2 =>
        simp only [findAllFuel]
        cases hm : matchAt (c :: rest) with
        | none =>
          simp only []
          exact ih n2 rest (by simp at h1; omega) (by simp at h2; omega)
        | some p =>
          obtain ⟨m, r⟩ := p
          have hl := matchAt_length hm
          simp only [List.length_cons] at hl h1 h2
          simp only []
          rw [ih n2 r (by omega) (by omega)]

/-! ## `parse_hofer_dates` (combined_pdf_scrapper.py, lines 46-79) -/

/-- Date built from one regex match: a missing year group defaults to
`current_year`, and `date(...)` construction failures (`ValueError`) are
`none` (the source skips them with `continue`). -/
def matchToDate (current_year : Int) (m : DateMatch) : Option PyDate :=
  mkDate
    (match m.yearOpt with
     | some y => (y : Int)
     | none => current_year)
    (m.month : Int) (m.day : Int)

/-- Model of `parse_hofer_dates(duration_str, current_year)`.  `.error ()`
models an uncaught `ValueError` raised by
`end_date.replace(year=end_date.year + 1)` when the incremented date is not
a valid calendar date (Feb 29 of a non-leap year). -/
def parse_hofer_dates (duration_str : String) (current_year : Int) :
    Except Unit (Option (PyDate × PyDate)) :=
  let match_dates := findAll duration_str.data
  if match_dates = [] then .ok none
  else
    match (findAll duration_str.data).filterMap (matchToDate current_year) with
    | [] => .ok none
    | first :: rest =>
      let start_date := first
      let end_date := (first :: rest).getLast (by simp)
      if pyLt end_date start_date && decide (end_date.month < start_date.month) then
        match mkDate (end_date.year + 1) end_date.month end_date.day with
        | some e => .ok (some (start_date, e))
        | none => .error ()
      else .ok (some (start_date, end_date))

/-! Specification-side rendering of the DateRangeParser contract (spec
section 4.1), written from the spec's words: every pattern match becomes a
candidate date with missing years defaulting to the context year; invalid
calendar dates are dropped; the first surviving date is the start, the last
is the end; the year-rollover rule increments the end year; the amendment
(forced by `parse_hofer_dates_feb29`) is the `.error` clause for a rollover
onto an invalid date. -/

/-- Candidate dates of the spec: all matched dates, year defaulted, invalid
ones dropped. -/
def specDatesOf (s : String) (contextYear : Int) : List PyDate :=
  (findAll s.data).filterMap (matchToDate contextYear)

/-- DateRangeParser contract from the spec's words (plus the error clause
the code forces). -/
def spec_parse (s : String) (contextYear : Int) :
    Except Unit (Option (PyDate × PyDate)) :=
  match specDatesOf s contextYear with
  | [] => .ok none
  | first :: rest =>
    let endd := (first :: rest).getLast (by simp)
    if pyLt endd first && decide (endd.month < first.month) then
      match mkDate (endd.year + 1) endd.month endd.day with
      | some e => .ok (some (first, e))
      | none => .error ()
    else .ok (some (first, endd))

/-- C2 counterexample: on `"28.12. 29.02."` with context year 2024 the start
is 2024-12-28 and the end is 2024-02-29 (a valid leap-day), the rollover
condition holds, and `end_date.replace(year=end_date.year + 1)` raises
`ValueError` (2025-02-29 does not exist) instead of returning a pair. -/
theorem parse_hofer_dates_feb29_raises :
    parse_hofer_dates ("28.12. 29.02.") 2024 = .error () := rfl

/-- C2 (amended): for every text and context year, `parse_hofer_dates`
behaves exactly as the spec's DateRangeParser contract — first match is the
start, last match is the end, missing years default to the context year,
invalid calendar dates are dropped, the December-to-January rollover
increments the end year, and no-match or all-invalid inputs give
`(null, null)` — except that when the rollover lands on an invalid calendar
date the function raises instead of returning.  The spec's three concrete
examples are included. -/
theorem parse_hofer_dates_spec :
    (∀ (s : String) (contextYear : Int),
        parse_hofer_dates s contextYear = spec_parse s contextYear) ∧
    parse_hofer_dates ("20.10. - 22.10.") 2025 =
      .ok (some (⟨2025, 10, 20⟩, ⟨2025, 10, 22⟩)) ∧
    parse_hofer_dates ("28.12. - 03.01.") 2025 =
      .ok (some (⟨2025, 12, 28⟩, ⟨2026, 1, 3⟩)) ∧
    parse_hofer_dates ("no dates here") 2025 = .ok none := by
  refine ⟨?_, rfl, rfl, rfl⟩
  intro s y
  unfold parse_hofer_dates spec_parse specDatesOf
  cases h : findAll s.data with
  | nil => simp [h]
  | cons a l => simp [h]

/-! ## `find_most_relevant_flyer` (combined_pdf_scrapper.py, lines 81-126) -/

/-- One scraped Hofer flyer card (the `flyer_info` dict built by
`scrape_hofer`). -/
structure Flyer where
  Title : String
  PDF_URL : String
  Duration : String
deriving DecidableEq, Repr

/-- A flyer whose `Duration` parsed: the dict after `end_date_obj` and
`start_date_obj` were attached. -/
structure ParsedFlyer where
  flyer : Flyer
  start_date_obj : PyDate
  end_date_obj : PyDate
deriving DecidableEq, Repr

/-- Tests whether `parse_hofer_dates` raises on this input (used to state
the no-uncaught-exception hypothesis decidably). -/
def parseRaises (duration : String) (y : Int) : Bool :=
  match parse_hofer_dates duration y with
  | .error _ => true
  | .ok _ => false

/-- The parsing loop of `find_most_relevant_flyer`: each flyer's `Duration`
is parsed with the current year as context; flyers whose parse returns
`(None, None)` are dropped; a raising parse propagates out of the loop. -/
def parseFlyers : List Flyer → Int → Except Unit (List ParsedFlyer)
  | [], _ => .ok []
  | f :: rest, y => do
    let r ← parse_hofer_dates f.Duration y
    let tail ← parseFlyers rest y
    match r with
    | some (sd, ed) => .ok (⟨f, sd, ed⟩ :: tail)
    | none => .ok tail

/-- Zero-padded two-digit field of `strftime("%Y-%m-%d")`. -/
def pad2 (n : Nat) : String := if n < 10 then "0" ++ toString n else toString n

/-- Model of `d.strftime("%Y-%m-%d")` (glibc prints the year unpadded, which
coincides with plain decimal for the four-digit years arising here). -/
def formatDate (d : PyDate) : String :=
  toString d.year.toNat ++ "-" ++ pad2 d.month.toNat ++ "-" ++ pad2 d.day.toNat

/-- The result dict built by `find_most_relevant_flyer` when a flyer is
selected. -/
structure HoferResult where
  Title : String
  Retailer : String
  PDF_URL : String
  Duration : String
  StartDate : String
  EndDate : String
deriving DecidableEq, Repr

/-- Final output formatting of the selected flyer. -/
def mkHoferResult (p : ParsedFlyer) : HoferResult :=
  ⟨p.flyer.Title, ("HOFER"), p.flyer.PDF_URL, p.flyer.Duration,
    formatDate p.start_date_obj, formatDate p.end_date_obj⟩

/-- Model of `lst.sort(key=lambda x: x['end_date_obj'], reverse=True)`
followed by `lst[0]`: Python's sort is stable and `reverse=True` keeps equal
keys in scan order, so the head of the sorted list is the first element
attaining the maximal end date — equivalently, the first element no later
element strictly exceeds. -/
def firstMaxByEnd : List ParsedFlyer → Option ParsedFlyer
  | [] => none
  | x :: xs =>
    if xs.all (fun y => !pyLt x.end_date_obj y.end_date_obj) then some x
    else firstMaxByEnd xs

/-- Model of `find_most_relevant_flyer(flyers_data)` with `date.today()`
made explicit.  The boolean is the staleness warning emitted when all
parsed flyers are expired.  `.error ()` models a `ValueError` escaping from
`parse_hofer_dates`. -/
def find_most_relevant_flyer (flyers_data : List Flyer) (today : PyDate) :
    Except Unit (Option HoferResult × Bool) := do
  let parsed_flyers ← parseFlyers flyers_data today.year
  let upcoming_or_current := parsed_flyers.filter (fun f => pyLe today f.end_date_obj)
  match firstMaxByEnd upcoming_or_current with
  | some x => .ok (some (mkHoferResult x), false)
  | none =>
    match firstMaxByEnd parsed_flyers with
    | some x => .ok (some (mkHoferResult x), true)
    | none => .ok (none, false)

/-- Spec-side candidate list (spec section 4.2 step 1): parse each
candidate with the context year, discarding candidates that fail. -/
def parsedCandidates (flyers : List Flyer) (y : Int) : List ParsedFlyer :=
  flyers.filterMap (fun f =>
    match parse_hofer_dates f.Duration y with
    | .ok (some (sd, ed)) => some ⟨f, sd, ed⟩
    | _ => none)

/-- The spec's selection rule: `x` occurs in `l`, everything before it has a
strictly smaller end date (scan-order tie-break), and nothing in `l` has a
strictly larger end date (maximality). -/
def IsFirstMaxEnd (l : List ParsedFlyer) (x : ParsedFlyer) : Prop :=
  ∃ pre post, l = pre ++ x :: post ∧
    (∀ y ∈ pre, pyLt y.end_date_obj x.end_date_obj = true) ∧
    (∀ y ∈ l, pyLt x.end_date_obj y.end_date_obj = false)

theorem pyLt_iff (a b : PyDate) : pyLt a b = true ↔
    (a.year < b.year ∨ (a.year = b.year ∧
      (a.month < b.month ∨ (a.month = b.month ∧ a.day < b.day)))) := by
  simp [pyLt]

theorem pyLt_false_iff (a b : PyDate) : pyLt a b = false ↔
    ¬ (a.year < b.year ∨ (a.year = b.year ∧
      (a.month < b.month ∨ (a.month = b.month ∧ a.day < b.day)))) := by
  rw [← Bool.not_eq_true, pyLt_iff]

theorem pyLt_irrefl (a : PyDate) : pyLt a a = false := by
  rw [pyLt_false_iff]
  omega

theorem pyLt_asymm {a b : PyDate} (h : pyLt a b = true) : pyLt b a = false := by
  rw [pyLt_iff] at h
  rw [pyLt_false_iff]
  omega

theorem pyLt_of_lt_of_not_lt {a y x : PyDate} (h1 : pyLt a y = true)
    (h2 : pyLt x y = false) : pyLt a x = true := by
  rw [pyLt_iff] at h1 ⊢
  rw [pyLt_false_iff] at h2
  omega

theorem firstMaxByEnd_eq_none {l : List ParsedFlyer}
    (h : firstMaxByEnd l = none) : l = [] := by
  induction l with
  | nil => rfl
  | cons a t ih =>
    simp only [firstMaxByEnd] at h
    split at h
    · exact absurd h (by simp)
    · have := ih h
      subst this
      simp_all

theorem firstMaxByEnd_spec :
    ∀ (l : List ParsedFlyer) (x : ParsedFlyer),
      firstMaxByEnd l = some x → IsFirstMaxEnd l x := by
  intro l
  induction l with
  | nil => intro x h; simp [firstMaxByEnd] at h
  | cons a t ih =>
    intro x h
    simp only [firstMaxByEnd] at h
    split at h
    · rename_i hall
      cases h
      refine ⟨[], t, rfl, by simp, ?_⟩
      intro y hy
      rcases List.mem_cons.mp hy with h1 | h1
      · subst h1; exact pyLt_irrefl _
      · have := (List.all_eq_true.mp hall) y h1
        simpa using this
    · rename_i hall
      obtain ⟨pre, post, heq, hpre, hmax⟩ := ih x h
      have hex : ∃ y ∈ t, pyLt a.end_date_obj y.end_date_obj = true := by
        by_contra hc
        push_neg at hc
        apply hall
        rw [List.all_eq_true]
        intro y hy
        have := hc y hy
        simp [Bool.not_eq_true] at this ⊢
        exact this
      obtain ⟨w, hw, hlt⟩ := hex
      have hax : pyLt a.end_date_obj x.end_date_obj = true := by
        have hxw : pyLt x.end_date_obj w.end_date_obj = false :=
          hmax w (heq ▸ hw)
        exact pyLt_of_lt_of_not_lt hlt hxw
      refine ⟨a :: pre, post, by rw [heq]; simp, ?_, ?_⟩
      · intro y hy
        rcases List.mem_cons.mp hy with h1 | h1
        · subst h1; exact hax
        · exact hpre y h1
      · intro y hy
        rcases List.mem_cons.mp hy with h1 | h1
        · subst h1; exact pyLt_asymm hax
        · exact hmax y (heq ▸ h1)

theorem parseFlyers_ok {flyers : List Flyer} {y : Int}
    (h : ∀ f ∈ flyers, parseRaises f.Duration y = false) :
    parseFlyers flyers y = .ok (parsedCandidates flyers y) := by
  induction flyers with
  | nil => rfl
  | cons f rest ih =>
    have hf : parseRaises f.Duration y = false := h f (by simp)
    have hrest : parseFlyers rest y = .ok (parsedCandidates rest y) :=
      ih (fun g hg => h g (by simp [hg]))
    unfold parseRaises at hf
    cases hp : parse_hofer_dates f.Duration y with
    | error e => rw [hp] at hf; simp at hf
    | ok r =>
      simp only [parseFlyers, hp, hrest, Bind.bind, Except.bind,
        parsedCandidates, List.filterMap_cons]
      cases r with
      | none => simp
      | some p =>
        obtain ⟨sd, ed⟩ := p
        simp [parsedCandidates]


/-- C1 counterexample: a single candidate whose duration text is
`"28.12. 29.02."`, resolved with today = 2024-06-01, makes
`find_most_relevant_flyer` propagate the `ValueError` raised inside
`parse_hofer_dates` — it neither discards the candidate nor returns a
selection, contradicting the claim's universally quantified description. -/
theorem find_most_relevant_flyer_raises :
    find_most_relevant_flyer [⟨("T"), ("u"), ("28.12. 29.02.")⟩] ⟨2024, 6, 1⟩ =
      .error () := rfl

/-- C1 (amended): provided no candidate's date text makes the parser raise
(the Feb-29 rollover corner), resolution behaves exactly as claimed: with
`P` the parsed candidates in scan order and `U` those with end date on or
after today, if `U` is non-empty the result is the first member of `U`
attaining the maximal end date with no staleness signal; if `P` is
non-empty but `U` is empty the result is the first member of `P` attaining
the maximal end date and the staleness warning is signalled; if no
candidate parses the result is null. -/
theorem find_most_relevant_flyer_spec :
    ∀ (flyers : List Flyer) (today : PyDate),
      (∀ f ∈ flyers, parseRaises f.Duration today.year = false) →
      ((parsedCandidates flyers today.year = [] →
          find_most_relevant_flyer flyers today = .ok (none, false)) ∧
       ((parsedCandidates flyers today.year).filter
            (fun f => pyLe today f.end_date_obj) ≠ [] →
          ∃ x, IsFirstMaxEnd ((parsedCandidates flyers today.year).filter
              (fun f => pyLe today f.end_date_obj)) x ∧
            find_most_relevant_flyer flyers today =
              .ok (some (mkHoferResult x), false)) ∧
       (parsedCandidates flyers today.year ≠ [] →
        (parsedCandidates flyers today.year).filter
            (fun f => pyLe today f.end_date_obj) = [] →
          ∃ x, IsFirstMaxEnd (parsedCandidates flyers today.year) x ∧
            find_most_relevant_flyer flyers today =
              .ok (some (mkHoferResult x), true))) := by
  intro flyers today h
  have hpf := parseFlyers_ok h
  have hfind : find_most_relevant_flyer flyers today =
      (match firstMaxByEnd ((parsedCandidates flyers today.year).filter
          (fun f => pyLe today f.end_date_obj)) with
       | some x => .ok (some (mkHoferResult x), false)
       | none =>
         match firstMaxByEnd (parsedCandidates flyers today.year) with
         | some x => .ok (some (mkHoferResult x), true)
         | none => .ok (none, false)) := by
    unfold find_most_relevant_flyer
    rw [hpf]
    rfl
  refine ⟨?_, ?_, ?_⟩
  · intro hP
    rw [hfind, hP]
    rfl
  · intro hU
    cases hfm : firstMaxByEnd ((parsedCandidates flyers today.year).filter
        (fun f => pyLe today f.end_date_obj)) with
    | none => exact absurd (firstMaxByEnd_eq_none hfm) hU
    | some x =>
      exact ⟨x, firstMaxByEnd_spec _ _ hfm, by rw [hfind, hfm]⟩
  · intro hP hU
    have hnone : firstMaxByEnd ((parsedCandidates flyers today.year).filter
        (fun f => pyLe today f.end_date_obj)) = none := by rw [hU]; rfl
    cases hfm : firstMaxByEnd (parsedCandidates flyers today.year) with
    | none => exact absurd (firstMaxByEnd_eq_none hfm) hP
    | some x =>
      exact ⟨x, firstMaxByEnd_spec _ _ hfm, by rw [hfind, hnone, hfm]⟩

/-- Concrete resolver scenario from the spec: two candidates, one ending
yesterday and one ending five days from today. -/
def flyersC1 : List Flyer :=
  [⟨("A"), ("u1"), ("21.05. - 26.05.")⟩, ⟨("B"), ("u2"), ("27.05. - 01.06.")⟩]

/-- Witness for C1's amended theorem: with today = 2025-05-27, candidate A
ends 2025-05-26 (yesterday) and candidate B ends 2025-06-01 (today + 5);
the resolver selects B without staleness. -/
theorem find_most_relevant_flyer_spec_witness :
    ∃ x, IsFirstMaxEnd ((parsedCandidates flyersC1 2025).filter
        (fun f => pyLe ⟨2025, 5, 27⟩ f.end_date_obj)) x ∧
      find_most_relevant_flyer flyersC1 ⟨2025, 5, 27⟩ =
        .ok (some (mkHoferResult x), false) :=
  (find_most_relevant_flyer_spec flyersC1 ⟨2025, 5, 27⟩ (by decide)).2.1 (by decide)

/-! ## `calculate_billa_duration_range` (combined_pdf_scrapper.py, lines 205-232)

Dates here are modelled as proleptic-Gregorian ordinals (`date.toordinal()`:
ordinal 1 is 0001-01-01, a Monday), on which `timedelta` arithmetic is
integer arithmetic.  The German duration string the source also returns is
presentation-level formatting of the same two dates and is not modelled. -/

/-- Model of `date.isoweekday()` on ordinals: Monday = 1 .. Sunday = 7. -/
def isoweekday (d : Int) : Int := (d - 1) % 7 + 1

/-- Model of `calculate_billa_duration_range()` with `date.today()` made an
explicit ordinal: the most recent Thursday (ISO 4) on or before today, and
the Wednesday six days later. -/
def calculate_billa_duration_range (today : Int) : Int × Int :=
  let iso_weekday := isoweekday today
  let start_date :=
    if iso_weekday ≥ 4 then today - (iso_weekday - 4)
    else today - (iso_weekday + 3)
  (start_date, start_date + 6)

/-- C8: for every today (hence every ISO weekday 1..7), the
calendar-deterministic Billa cycle starts on a Thursday (ISO weekday 4) on
or before today and within the last seven days — this week's Thursday when
today's ISO weekday is at least 4, else last week's — and ends exactly six
days after the start; the computation is total. -/
theorem calculate_billa_duration_range_spec :
    ∀ today : Int,
      isoweekday (calculate_billa_duration_range today).1 = 4 ∧
      (calculate_billa_duration_range today).2 =
        (calculate_billa_duration_range today).1 + 6 ∧
      (calculate_billa_duration_range today).1 ≤ today ∧
      today < (calculate_billa_duration_range today).1 + 7 := by
  intro today
  simp only [calculate_billa_duration_range, isoweekday]
  split
  · exact ⟨by omega, by trivial, by omega, by omega⟩
  · exact ⟨by omega, by trivial, by omega, by omega⟩

/-! ## `slugify` (leaflet_downloader.py, lines 18-23)

Character classes of `re` and `str.lower`/`str.strip` are modelled on the
ASCII fragment (on which `pyLower` is exactly Python `str.lower`); the
claim theorems carry an all-ASCII hypothesis marking that scope. -/

/-- ASCII lower-case letter. -/
def isAsciiLower (c : Char) : Bool := 97 ≤ c.toNat && c.toNat ≤ 122

/-- ASCII upper-case letter. -/
def isAsciiUpper (c : Char) : Bool := 65 ≤ c.toNat && c.toNat ≤ 90

/-- ASCII digit. -/
def isAsciiDigit (c : Char) : Bool := 48 ≤ c.toNat && c.toNat ≤ 57

/-- Python `\s` on ASCII. -/
def isPySpace (c : Char) : Bool :=
  c = ' ' || c = '\t' || c = '\n' || c = '\r' || c = '\x0b' || c = '\x0c'

/-- Python `\w` on ASCII: letters, digits, and the underscore. -/
def isWordChar (c : Char) : Bool :=
  isAsciiLower c || isAsciiUpper c || isAsciiDigit c || c = '_'

/-- Model of `str.lower()` on one character (ASCII fragment). -/
def pyLower (c : Char) : Char :=
  if isAsciiUpper c then Char.ofNat (c.toNat + 32) else c

/-- Model of `str.strip()`: drop leading and trailing whitespace. -/
def pyStrip (s : List Char) : List Char :=
  ((s.dropWhile isPySpace).reverse.dropWhile isPySpace).reverse

namespace LeafletDownloader

/-- Model of `slugify(text)` from leaflet_downloader.py: lower-case, strip,
delete every character outside `\w`, whitespace and hyphen, then delete
every hyphen and whitespace character, and keep the first 50 characters.
(Because the second substitution replaces with the empty string, replacing
maximal `[-\s]+` runs and replacing single characters coincide.) -/
def slugify (text : String) : String :=
  ⟨(((pyStrip (text.data.map pyLower)).filter
      (fun c => isWordChar c || isPySpace c || c = '-')).filter
      (fun c => !(c = '-' || isPySpace c))).take 50⟩

end LeafletDownloader

theorem toNat_ofNat_of_valid {n : Nat} (h : n.isValidChar) :
    (Char.ofNat n).toNat = n := by
  rw [Char.ofNat, dif_pos h]
  rfl

theorem pyLower_not_upper (c : Char) : isAsciiUpper (pyLower c) = false := by
  unfold pyLower
  split
  · rename_i h
    simp only [isAsciiUpper, Bool.and_eq_true, decide_eq_true_eq] at h
    have hv : (c.toNat + 32).isValidChar := Or.inl (by omega)
    simp only [isAsciiUpper, toNat_ofNat_of_valid hv, Bool.and_eq_false_iff]
    right
    simp only [decide_eq_false_iff_not]
    omega
  · rename_i h
    exact Bool.eq_false_iff.mpr (fun hc => h hc)

theorem pyStrip_subset {c : Char} {l : List Char} (h : c ∈ pyStrip l) : c ∈ l := by
  unfold pyStrip at h
  rw [List.mem_reverse] at h
  have h2 : c ∈ (l.dropWhile isPySpace).reverse :=
    (List.dropWhile_sublist _).subset h
  rw [List.mem_reverse] at h2
  exact (List.dropWhile_sublist _).subset h2

/-- C9 counterexample: `slugify("_")` evaluates to `"_"`, whose single
character is neither a lower-case letter nor a digit — the underscore is a
`\w` character, so the first substitution keeps it and the second does not
remove it. -/
theorem slugify_underscore :
    LeafletDownloader.slugify ("_") = ("_") ∧
      ((LeafletDownloader.slugify ("_")).data.all
        (fun c => isAsciiLower c || isAsciiDigit c)) = false := by
  exact ⟨rfl, rfl⟩

/-- C9 (amended): for every ASCII input, `slugify` lower-cases, strips
characters outside word characters, space and hyphen, removes whitespace
and hyphens, and truncates to 50 characters; consequently its output is
deterministic, at most 50 characters long, and contains only lower-case
letters, digits, and underscores (the underscore — kept by the `\w` class —
is what the original claim's "letters and digits" misses). -/
theorem slugify_spec :
    ∀ s : String, (∀ c ∈ s.data, c.toNat < 128) →
      ((LeafletDownloader.slugify s).data.all
        (fun c => isAsciiLower c || isAsciiDigit c || c = '_')) = true ∧
      (LeafletDownloader.slugify s).data.length ≤ 50 := by
  intro s hascii
  constructor
  · rw [List.all_eq_true]
    intro c hc
    simp only [LeafletDownloader.slugify] at hc
    have h1 := List.take_subset _ _ hc
    have h2 := List.mem_filter.mp h1
    have h3 := List.mem_filter.mp h2.1
    have h4 : c ∈ s.data.map pyLower := pyStrip_subset h3.1
    obtain ⟨c0, hc0, hcl⟩ := List.mem_map.mp h4
    have hup : isAsciiUpper c = false := hcl ▸ pyLower_not_upper c0
    have hno : decide (c = '-') = false ∧ isPySpace c = false := by
      have hb := h2.2
      simp only [Bool.not_eq_true', Bool.or_eq_false_iff] at hb
      exact hb
    have hw : isWordChar c = true := by
      rcases Bool.or_eq_true_iff.mp h3.2 with h | h
      · rcases Bool.or_eq_true_iff.mp h with h | h
        · exact h
        · rw [hno.2] at h; cases h
      · rw [hno.1] at h; cases h
    rcases Bool.or_eq_true_iff.mp hw with h | h
    · rcases Bool.or_eq_true_iff.mp h with h | h
      · rcases Bool.or_eq_true_iff.mp h with h | h
        · simp [h]
        · rw [h] at hup; cases hup
      · simp [h]
    · simp [h]
  · simp only [LeafletDownloader.slugify]
    exact List.length_take_le _ _

/-- Witness for C9's amended theorem at a concrete ASCII input. -/
theorem slugify_spec_witness :
    ((LeafletDownloader.slugify ("BILLA Flugblatt KW-42!")).data.all
      (fun c => isAsciiLower c || isAsciiDigit c || c = '_')) = true ∧
    (LeafletDownloader.slugify ("BILLA Flugblatt KW-42!")).data.length ≤ 50 :=
  slugify_spec ("BILLA Flugblatt KW-42!") (by decide)

/-! ## Cleanup sweep (leaflet_downloader.py, lines 88-110) -/

/-- One entry of `current_active_flyers.json` as consumed by the
downloader: `flyer.get(key, default)` yields the default when the key is
absent (`none`). -/
structure FlyerDict where
  Retailer : Option String
  EndDate : Option String
  Title : Option String
  PDF_URL : Option String
deriving DecidableEq, Repr

/-- Model of `str.endswith(suffix)`. -/
def pyEndsWith (s suffix : String) : Bool := suffix.data.isSuffixOf s.data

/-- Expected local filename of one flyer:
`f"{retailer}_{end_date}_{slugify(title)}.pdf"` with the `.get` defaults of
the source (`datetime.now()` is the explicit `nowStr`). -/
def expectedFilename (nowStr : String) (f : FlyerDict) : String :=
  (f.Retailer.getD ("Unknown")) ++ ("_") ++ (f.EndDate.getD nowStr) ++ ("_") ++
    LeafletDownloader.slugify (f.Title.getD ("Flyer")) ++ (".pdf")

/-- The expected-filename set computed before the sweep (a Python `set`;
modelled as the list with membership semantics). -/
def expected_filenames (flyers : List FlyerDict) (nowStr : String) : List String :=
  flyers.map (expectedFilename nowStr)

/-- Files the sweep deletes: `filename.endswith(".pdf") and filename not in
expected_filenames` (each `os.remove` assumed to succeed; a failed removal
is caught and merely logged). -/
def cleanupDeleted (existing expected : List String) : List String :=
  existing.filter (fun fn => pyEndsWith fn (".pdf") && !(decide (fn ∈ expected)))

/-- Files the sweep leaves untouched. -/
def cleanupRemaining (existing expected : List String) : List String :=
  existing.filter (fun fn => !(pyEndsWith fn (".pdf") && !(decide (fn ∈ expected))))

/-- C6: for every flyer list and every pre-existing file set, the cleanup
sweep deletes exactly the `.pdf`-suffixed files whose names are not in the
expected-filename set, and every file not ending in `.pdf` survives the
sweep untouched (the sweep's only effect is `os.remove` on the deleted
set). -/
theorem cleanup_sweep_spec :
    ∀ (flyers : List FlyerDict) (nowStr : String) (existing : List String),
      (∀ fn, fn ∈ cleanupDeleted existing (expected_filenames flyers nowStr) ↔
        (fn ∈ existing ∧ pyEndsWith fn (".pdf") = true ∧
          fn ∉ expected_filenames flyers nowStr)) ∧
      (∀ fn, fn ∈ cleanupRemaining existing (expected_filenames flyers nowStr) ↔
        (fn ∈ existing ∧ (pyEndsWith fn (".pdf") = false ∨
          fn ∈ expected_filenames flyers nowStr))) := by
  intro flyers nowStr existing
  constructor
  · intro fn
    simp [cleanupDeleted, List.mem_filter]
  · intro fn
    simp only [cleanupRemaining, List.mem_filter, Bool.not_eq_true',
      Bool.and_eq_false_iff, Bool.not_eq_false]
    constructor
    · rintro ⟨hmem, h | h⟩
      · exact ⟨hmem, Or.inl h⟩
      · refine ⟨hmem, Or.inr ?_⟩
        simpa using h
    · rintro ⟨hmem, h | h⟩
      · exact ⟨hmem, Or.inl h⟩
      · refine ⟨hmem, Or.inr ?_⟩
        simpa using h

/-! ## Batch enricher (data_enricher.py)

An offer dict is modelled with one field per key the modelled code reads or
writes; the outer `Option` is key presence (`offer.get(k)` is `none` when
the key is absent).  The five fields written by the enrichment merge can
hold Python `None` (when the Oracle result lacks the field), hence their
inner `Option`.  `unitKey` models the `"Unit"` key and `availability` the
`"Availability (Date Range)"` key.  Keys the modelled code never touches
are omitted; they would be carried through unchanged. -/

structure OfferRecord where
  productName : Option String := none
  unitKey : Option String := none
  availability : Option String := none
  storeName : Option String := none
  packageSize : Option String := none
  currentPrice : Option String := none
  oldPrice : Option String := none
  availabilityDateRange : Option String := none
  productHash : Option (Option String) := none
  category : Option (Option String) := none
  searchTags : Option (Option (List String)) := none
  offerStartDate : Option (Option String) := none
  offerEndDate : Option (Option String) := none
  currentPriceNumeric : Option (Option String) := none
  oldPriceNumeric : Option (Option String) := none
deriving DecidableEq, Repr

/-- The minimal projection sent to the Oracle for one offer. -/
structure MinimalOffer where
  id : Nat
  productName : String
  unitKey : String
  availability : String
  storeName : String
deriving DecidableEq, Repr

/-- One enrichment result returned by the Oracle; every field may be
absent (the merge code never checks). -/
structure EnrichedItem where
  id : Option Int := none
  productHash : Option String := none
  category : Option String := none
  searchTags : Option (List String) := none
  offerStartDate : Option String := none
  offerEndDate : Option String := none
deriving DecidableEq, Repr

/-- The Oracle as seen by `process_batch`: batch index (1-based), projected
payload, attempt number (0-based) ↦ either a parsed JSON list (any HTTP
success whose body parses as a list) or a failure (network error, non-2xx
status, absent or malformed body, or a non-list body — all of which the
source's `except` clause treats identically). -/
abbrev OracleFn : Type :=
  Nat → List MinimalOffer → Nat → Except Unit (List EnrichedItem)

/-- Model of `prepare_batch_for_llm(batch, offset_index)`:
`id = offset_index + i` is realised by incrementing the offset while
walking the batch. -/
def prepare_batch_for_llm : List OfferRecord → Nat → List MinimalOffer
  | [], _ => []
  | offer :: rest, offset =>
    ⟨offset, offer.productName.getD (""), offer.unitKey.getD (""),
      offer.availability.getD (""), offer.storeName.getD ("")⟩ ::
      prepare_batch_for_llm rest (offset + 1)

/-- Source constant `max_retries = 5`. -/
def max_retries : Nat := 5

/-- Source constant `BATCH_SIZE = 100`. -/
def BATCH_SIZE : Nat := 100

/-- The retry loop of `process_batch`: `left` counts the attempts still
allowed (`max_retries - attempt`).  A successful call returns its list; a
failure with retries left sleeps `2 ** (attempt + 1)` seconds (collected in
the second component) and retries; the final failure returns `[]`. -/
def attemptLoop (call : Nat → Except Unit (List EnrichedItem)) :
    Nat → Nat → List EnrichedItem × List Nat
  | _, 0 => ([], [])
  | attempt, left + 1 =>
    match call attempt with
    | .ok lst => (lst, [])
    | .error _ =>
      if left = 0 then ([], [])
      else
        let r := attemptLoop call (attempt + 1) left
        (r.1, 2 ^ (attempt + 1) :: r.2)

/-- Model of `process_batch(batch, batch_index, offset_index)`: project the
batch, then run the retry loop; returns the parsed result list (empty when
all attempts failed) together with the backoff sleeps performed. -/
def process_batch (oracle : OracleFn) (batch : List OfferRecord)
    (batch_index offset_index : Nat) : List EnrichedItem × List Nat :=
  attemptLoop (oracle batch_index (prepare_batch_for_llm batch offset_index))
    0 max_retries

/-- The in-place `offers[original_index].update({...})`: the five enrichment
keys become present, holding the item's values (Python `None` — inner
`none` — when the result lacks the field). -/
def updateRecord (o : OfferRecord) (it : EnrichedItem) : OfferRecord :=
  { o with productHash := some it.productHash, category := some it.category,
           searchTags := some it.searchTags,
           offerStartDate := some it.offerStartDate,
           offerEndDate := some it.offerEndDate }

/-- In-place update of the record at one index. -/
def updateAt : List OfferRecord → Nat → EnrichedItem → List OfferRecord
  | [], _, _ => []
  | o :: rest, 0, it => updateRecord o it :: rest
  | o :: rest, n + 1, it => o :: updateAt rest n it

/-- Merge of one returned result (state = current records × success count):
an item whose `id` is absent or outside `[0, total)` is skipped, an
in-range `id` updates the record at that index and counts one success. -/
def applyItem (total : Nat) (st : List OfferRecord × Nat) (it : EnrichedItem) :
    List OfferRecord × Nat :=
  match it.id with
  | none => st
  | some n =>
    if 0 ≤ n ∧ n < (total : Int) then (updateAt st.1 n.toNat it, st.2 + 1)
    else st

/-- The merge loop over one chunk's returned results. -/
def mergeItems (total : Nat) (st : List OfferRecord × Nat) :
    List EnrichedItem → List OfferRecord × Nat
  | [] => st
  | it :: rest => mergeItems total (applyItem total st it) rest

/-- Chunking `[offers[i:i + size] for i in range(0, len(offers), size)]`,
with a fuel argument for structural recursion (`l.length` fuel suffices:
each step consumes at least one element since `0 < size`). -/
def chunksFuel {α : Type} (size : Nat) : Nat → List α → List (List α)
  | 0, _ => []
  | _ + 1, [] => []
  | fuel + 1, x :: xs => (x :: xs).take size :: chunksFuel size fuel ((x :: xs).drop size)

/-- Chunk list of the source.  Python's `range` raises `ValueError` for step
0; the source only uses `BATCH_SIZE = 100`, and the theorems carry
`0 < size`. -/
def chunksList {α : Type} (size : Nat) (l : List α) : List (List α) :=
  if size = 0 then [] else chunksFuel size l.length l

/-- Observable trace of one `enrich_data_with_llm` run: the final (merged)
record list, the projected payload of every Oracle call in order, the
backoff sleeps of every chunk, the success counter, and the returned
(filtered) list. -/
structure EnrichTrace where
  finalRecords : List OfferRecord
  calls : List (List MinimalOffer)
  chunkSleeps : List (List Nat)
  successCount : Nat
  result : List OfferRecord
deriving DecidableEq, Repr

/-- The per-batch loop of `enrich_data_with_llm`.  The source slices
`batches` up front and then mutates the shared dicts during merges; since a
merge only writes the five enrichment keys and the projection only reads
the four others, projecting from the pre-merge slices (as done here) is
observationally identical. -/
def enrichLoop (oracle : OracleFn) (total : Nat) :
    List (List OfferRecord) → Nat → Nat → List OfferRecord → Nat →
      List OfferRecord × List (List MinimalOffer) × List (List Nat) × Nat
  | [], _, _, cur, succ => (cur, [], [], succ)
  | b :: rest, bidx, offset, cur, succ =>
    let pb := process_batch oracle b bidx offset
    let merged := mergeItems total (cur, succ) pb.1
    let tail := enrichLoop oracle total rest (bidx + 1) (offset + b.length)
      merged.1 merged.2
    (tail.1, prepare_batch_for_llm b offset :: tail.2.1, pb.2 :: tail.2.2.1,
      tail.2.2.2)

/-- Model of `enrich_data_with_llm(offers)` with the module constant
`BATCH_SIZE` and the Oracle made explicit.  The returned list is the
sub-sequence of records that carry the `productHash` key after all merges. -/
def enrich_data_with_llm (offers : List OfferRecord) (batchSize : Nat)
    (oracle : OracleFn) : EnrichTrace :=
  let r := enrichLoop oracle offers.length (chunksList batchSize offers) 1 0 offers 0
  { finalRecords := r.1, calls := r.2.1, chunkSleeps := r.2.2.1,
    successCount := r.2.2.2,
    result := r.1.filter (fun o => o.productHash.isSome) }

theorem chunksFuel_flatten {α : Type} {size : Nat} (hs : 0 < size) :
    ∀ (fuel : Nat) (l : List α), l.length ≤ fuel →
      (chunksFuel size fuel l).flatten = l := by
  intro fuel
  induction fuel with
  | zero =>
    intro l h
    have hl : l = [] := List.length_eq_zero.mp (Nat.le_zero.mp h)
    subst hl
    rfl
  | succ n ih =>
    intro l h
    cases l with
    | nil => rfl
    | cons x xs =>
      have hlen : ((x :: xs).drop size).length ≤ n := by
        simp only [List.length_drop, List.length_cons]
        simp only [List.length_cons] at h
        omega
      simp only [chunksFuel, List.flatten_cons, ih _ hlen, List.take_append_drop]

theorem chunksFuel_getElem? {α : Type} {size : Nat} (hs : 0 < size) :
    ∀ (fuel : Nat) (l : List α) (k : Nat), l.length ≤ fuel →
      (chunksFuel size fuel l)[k]? =
        if l.length ≤ k * size then none
        else some ((l.drop (k * size)).take size) := by
  intro fuel
  induction fuel with
  | zero =>
    intro l k h
    have hl : l = [] := List.length_eq_zero.mp (Nat.le_zero.mp h)
    subst hl
    simp [chunksFuel]
  | succ n ih =>
    intro l k h
    cases l with
    | nil => simp [chunksFuel]
    | cons x xs =>
      cases k with
      | zero =>
        simp only [chunksFuel, List.getElem?_cons_zero, Nat.zero_mul,
          List.drop_zero]
        rw [if_neg (by simp)]
      | succ k =>
        have hlen : ((x :: xs).drop size).length ≤ n := by
          simp only [List.length_drop, List.length_cons]
          simp only [List.length_cons] at h
          omega
        simp only [chunksFuel, List.getElem?_cons_succ]
        rw [ih _ k hlen, List.drop_drop, List.length_drop]
        rw [show (k + 1) * size = k * size + size from by ring]
        rw [show size + k * size = k * size + size from by ring]
        by_cases hc : (x :: xs).length ≤ k * size + size
        · rw [if_pos (by omega), if_pos hc]
        · rw [if_neg (by omega), if_neg hc]

theorem chunksFuel_take_flatten {α : Type} {size : Nat} (hs : 0 < size) :
    ∀ (fuel : Nat) (l : List α) (k : Nat), l.length ≤ fuel →
      ((chunksFuel size fuel l).take k).flatten = l.take (k * size) := by
  intro fuel
  induction fuel with
  | zero =>
    intro l k h
    have hl : l = [] := List.length_eq_zero.mp (Nat.le_zero.mp h)
    subst hl
    simp [chunksFuel]
  | succ n ih =>
    intro l k h
    cases l with
    | nil => simp [chunksFuel]
    | cons x xs =>
      cases k with
      | zero => simp
      | succ k =>
        have hlen : ((x :: xs).drop size).length ≤ n := by
          simp only [List.length_drop, List.length_cons]
          simp only [List.length_cons] at h
          omega
        simp only [chunksFuel, List.take_succ_cons, List.flatten_cons,
          ih _ k hlen]
        rw [show (k + 1) * size = size + k * size from by ring,
          List.take_add]

theorem chunksList_flatten {α : Type} {size : Nat} (hs : 0 < size)
    (l : List α) : (chunksList size l).flatten = l := by
  unfold chunksList
  rw [if_neg (by omega)]
  exact chunksFuel_flatten hs _ _ (Nat.le_refl _)

theorem chunksList_getElem? {α : Type} {size : Nat} (hs : 0 < size)
    (l : List α) (k : Nat) :
    (chunksList size l)[k]? =
      if l.length ≤ k * size then none
      else some ((l.drop (k * size)).take size) := by
  unfold chunksList
  rw [if_neg (by omega)]
  exact chunksFuel_getElem? hs _ _ _ (Nat.le_refl _)

theorem chunks_offset {size : Nat} (hs : 0 < size)
    {l : List OfferRecord} {k : Nat} {b : List OfferRecord}
    (hk : (chunksList size l)[k]? = some b) :
    (((chunksList size l).take k).map List.length).sum = k * size := by
  have h1 : ((chunksList size l).take k).flatten = l.take (k * size) := by
    unfold chunksList
    rw [if_neg (by omega)]
    exact chunksFuel_take_flatten hs _ _ _ (Nat.le_refl _)
  have h2 := congrArg List.length h1
  rw [List.length_flatten, List.length_take] at h2
  rw [chunksList_getElem? hs] at hk
  split at hk
  · cases hk
  · rename_i hc
    rw [h2]
    omega

theorem prepare_ids :
    ∀ (batch : List OfferRecord) (offset j : Nat) (m : MinimalOffer),
      (prepare_batch_for_llm batch offset)[j]? = some m → m.id = offset + j := by
  intro batch
  induction batch with
  | nil => intro offset j m h; simp [prepare_batch_for_llm] at h
  | cons o rest ih =>
    intro offset j m h
    cases j with
    | zero =>
      simp only [prepare_batch_for_llm, List.getElem?_cons_zero,
        Option.some.injEq] at h
      subst h
      simp
    | succ j =>
      simp only [prepare_batch_for_llm, List.getElem?_cons_succ] at h
      have := ih (offset + 1) j m h
      omega

theorem enrichLoop_calls (oracle : OracleFn) (total : Nat) :
    ∀ (batches : List (List OfferRecord)) (bidx offset : Nat)
      (cur : List OfferRecord) (succ : Nat),
      ((enrichLoop oracle total batches bidx offset cur succ).2.1.length =
        batches.length) ∧
      (∀ k b, batches[k]? = some b →
        (enrichLoop oracle total batches bidx offset cur succ).2.1[k]? =
          some (prepare_batch_for_llm b
            (offset + ((batches.take k).map List.length).sum))) := by
  intro batches
  induction batches with
  | nil =>
    intro bidx offset cur succ
    exact ⟨rfl, by intro k b h; simp at h⟩
  | cons hd rest ih =>
    intro bidx offset cur succ
    constructor
    · simp only [enrichLoop, List.length_cons]
      rw [(ih _ _ _ _).1]
    · intro k b hb
      cases k with
      | zero =>
        simp only [List.getElem?_cons_zero, Option.some.injEq] at hb
        subst hb
        simp [enrichLoop]
      | succ k =>
        simp only [List.getElem?_cons_succ] at hb
        have hih := (ih (bidx + 1) (offset + hd.length)
          (mergeItems total (cur, succ)
            (process_batch oracle hd bidx offset).1).1
          (mergeItems total (cur, succ)
            (process_batch oracle hd bidx offset).1).2).2 k b hb
        simp only [enrichLoop, List.getElem?_cons_succ]
        rw [hih]
        congr 2
        simp only [List.take_succ_cons, List.map_cons, List.sum_cons]
        omega

/-- An offer dict with no keys set (all `offer.get` calls fall back to
their defaults). -/
def sampleRecord : OfferRecord := {}

/-- The spec's 237-record scenario. -/
def offers237 : List OfferRecord := List.replicate 237 sampleRecord

/-- An Oracle that always succeeds with an empty result list. -/
def emptyOracle : OracleFn := fun _ _ _ => .ok []

/-- A well-formed enrichment result with id 150. -/
def item150 : EnrichedItem :=
  { id := some 150, productHash := some ("apfel"),
    category := some ("Fresh Produce"), searchTags := some [("apfel")],
    offerStartDate := some ("2025-10-20"), offerEndDate := some ("2025-10-26") }

/-- An Oracle that returns `item150` on the second chunk and nothing
elsewhere. -/
def oracle150 : OracleFn := fun bidx _ _ =>
  if bidx = 2 then .ok [item150] else .ok []

/-- C3: `enrich` partitions the records into consecutive chunks of at most
`batchSize` (their concatenation is the record list and chunk k is
`records[k·batchSize : k·batchSize + batchSize]`); the k-th Oracle call
carries exactly the projection of chunk k with ids `k·batchSize + local
index`; and concretely 237 records with batch size 100 produce three calls
whose first ids are 0, 100 and 200, while a returned result with id 150
updates the record at index 150 and nothing else. -/
theorem enrich_batching_spec :
    (∀ (offers : List OfferRecord) (batchSize : Nat) (oracle : OracleFn),
      0 < batchSize →
      ((chunksList batchSize offers).flatten = offers) ∧
      (∀ k b, (chunksList batchSize offers)[k]? = some b →
        b = (offers.drop (k * batchSize)).take batchSize ∧
          b.length ≤ batchSize) ∧
      ((enrich_data_with_llm offers batchSize oracle).calls.length =
        (chunksList batchSize offers).length) ∧
      (∀ k b, (chunksList batchSize offers)[k]? = some b →
        (enrich_data_with_llm offers batchSize oracle).calls[k]? =
          some (prepare_batch_for_llm b (k * batchSize))) ∧
      (∀ (batch : List OfferRecord) (offset j : Nat) (m : MinimalOffer),
        (prepare_batch_for_llm batch offset)[j]? = some m →
          m.id = offset + j)) ∧
    ((enrich_data_with_llm offers237 BATCH_SIZE emptyOracle).calls.map
        (fun c => c.head?.map MinimalOffer.id) = [some 0, some 100, some 200]) ∧
    ((enrich_data_with_llm offers237 BATCH_SIZE oracle150).finalRecords =
      offers237.set 150 (updateRecord sampleRecord item150)) ∧
    ((enrich_data_with_llm offers237 BATCH_SIZE oracle150).successCount = 1) := by
  refine ⟨?_, by decide, by decide, by decide⟩
  intro offers batchSize oracle hs
  refine ⟨chunksList_flatten hs offers, ?_, ?_, ?_, prepare_ids⟩
  · intro k b hb
    rw [chunksList_getElem? hs] at hb
    split at hb
    · cases hb
    · cases hb
      exact ⟨rfl, List.length_take_le _ _⟩
  · show (enrichLoop oracle offers.length (chunksList batchSize offers)
      1 0 offers 0).2.1.length = _
    exact (enrichLoop_calls oracle offers.length (chunksList batchSize offers)
      1 0 offers 0).1
  · intro k b hb
    have hoff := chunks_offset hs hb
    have hc := (enrichLoop_calls oracle offers.length
      (chunksList batchSize offers) 1 0 offers 0).2 k b hb
    show (enrichLoop oracle offers.length (chunksList batchSize offers)
      1 0 offers 0).2.1[k]? = _
    rw [hc, hoff, Nat.zero_add]

/-- Witness for C3 at a concrete input. -/
theorem enrich_batching_spec_witness :
    (chunksList 1 [sampleRecord]).flatten = [sampleRecord] :=
  (enrich_batching_spec.1 [sampleRecord] 1 emptyOracle (by decide)).1

/-- An Oracle whose every attempt fails (network error, non-2xx, malformed
body, or non-list body — all alike to the `except` clause). -/
def failOracle : OracleFn := fun _ _ _ => .error ()

/-- A record that already carries the `productHash` key, as every record
emitted by the extraction post-processor does. -/
def recordWithHash : OfferRecord := { productHash := some (some ("x")) }

theorem attemptLoop_allfail (call : Nat → Except Unit (List EnrichedItem))
    (h : ∀ a, call a = .error ()) :
    attemptLoop call 0 max_retries = ([], [2, 4, 8, 16]) := by
  simp [attemptLoop, max_retries, h]

theorem enrichLoop_allfail (oracle : OracleFn) (total : Nat)
    (h : ∀ b m a, oracle b m a = .error ()) :
    ∀ (batches : List (List OfferRecord)) (bidx offset : Nat)
      (cur : List OfferRecord) (succ : Nat),
      (enrichLoop oracle total batches bidx offset cur succ).1 = cur ∧
      (enrichLoop oracle total batches bidx offset cur succ).2.2.2 = succ ∧
      (∀ sl ∈ (enrichLoop oracle total batches bidx offset cur succ).2.2.1,
        sl = [2, 4, 8, 16]) := by
  intro batches
  induction batches with
  | nil =>
    intro bidx offset cur succ
    exact ⟨rfl, rfl, by intro sl hsl; simp [enrichLoop] at hsl⟩
  | cons hd rest ih =>
    intro bidx offset cur succ
    have hpb : process_batch oracle hd bidx offset = ([], [2, 4, 8, 16]) :=
      attemptLoop_allfail _ (fun a => h bidx _ a)
    simp only [enrichLoop, hpb, mergeItems]
    refine ⟨(ih _ _ _ _).1, (ih _ _ _ _).2.1, ?_⟩
    intro sl hsl
    simp only [List.mem_cons] at hsl
    rcases hsl with h1 | h1
    · exact h1
    · exact (ih _ _ _ _).2.2 sl h1

/-- C4 counterexample: with a record that already carries the
`productHash` key (as records from the extraction post-processor do) and
every Oracle attempt failing, the returned enriched list is that record,
not the empty list — the final filter keeps pre-hashed records. -/
theorem enrich_allfail_not_empty :
    (enrich_data_with_llm [recordWithHash] 100 failOracle).result ≠ [] := by
  decide

/-- C4 (amended): if every Oracle attempt for every chunk fails, each chunk
performs exactly the backoff sleeps 2·2⁰, 2·2¹, 2·2², 2·2³ (base 2 seconds,
5 attempts) before being abandoned, processing continues (one Oracle call
sequence per chunk), no exception is raised, no record is modified, zero
successes are counted, and `enrich` returns exactly the sub-list of records
that already carried the `productHash` key — the empty list when none did. -/
theorem enrich_allfail_spec :
    ∀ (offers : List OfferRecord) (batchSize : Nat) (oracle : OracleFn),
      0 < batchSize →
      (∀ b m a, oracle b m a = .error ()) →
      (enrich_data_with_llm offers batchSize oracle).finalRecords = offers ∧
      (enrich_data_with_llm offers batchSize oracle).result =
        offers.filter (fun o => o.productHash.isSome) ∧
      (enrich_data_with_llm offers batchSize oracle).successCount = 0 ∧
      (∀ sl ∈ (enrich_data_with_llm offers batchSize oracle).chunkSleeps,
        sl = [2, 4, 8, 16]) ∧
      (enrich_data_with_llm offers batchSize oracle).calls.length =
        (chunksList batchSize offers).length := by
  intro offers batchSize oracle hs hfail
  have h := enrichLoop_allfail oracle offers.length hfail
    (chunksList batchSize offers) 1 0 offers 0
  refine ⟨h.1, ?_, h.2.1, h.2.2, ?_⟩
  · show (enrichLoop oracle offers.length (chunksList batchSize offers)
      1 0 offers 0).1.filter (fun o => o.productHash.isSome) = _
    rw [h.1]
  · show (enrichLoop oracle offers.length (chunksList batchSize offers)
      1 0 offers 0).2.1.length = _
    exact (enrichLoop_calls oracle offers.length (chunksList batchSize offers)
      1 0 offers 0).1

/-- Witness for C4's amended theorem: one pre-hashed record, every call
failing — the record itself comes back. -/
theorem enrich_allfail_spec_witness :
    (enrich_data_with_llm [recordWithHash] 100 failOracle).finalRecords =
      [recordWithHash] :=
  (enrich_allfail_spec [recordWithHash] 100 failOracle (by decide)
    (fun _ _ _ => rfl)).1

theorem mergeItems_skip (total : Nat) :
    ∀ (items : List EnrichedItem) (st : List OfferRecord × Nat),
      (∀ it ∈ items, ∀ n, it.id = some n → ¬(0 ≤ n ∧ n < (total : Int))) →
      mergeItems total st items = st := by
  intro items
  induction items with
  | nil => intro st _; rfl
  | cons it rest ih =>
    intro st h
    have hit : applyItem total st it = st := by
      cases hid : it.id with
      | none => unfold applyItem; rw [hid]
      | some n =>
        have heq : applyItem total st it =
            if 0 ≤ n ∧ n < (total : Int) then
              (updateAt st.1 n.toNat it, st.2 + 1)
            else st := by
          unfold applyItem
          rw [hid]
        rw [heq, if_neg (h it (by simp) n hid)]
    simp only [mergeItems, hit]
    exact ih st (fun x hx => h x (by simp [hx]))

theorem attemptLoop_result (call : Nat → Except Unit (List EnrichedItem)) :
    ∀ (left attempt : Nat),
      (attemptLoop call attempt left).1 = [] ∨
      ∃ a, call a = .ok (attemptLoop call attempt left).1 := by
  intro left
  induction left with
  | zero => intro attempt; left; rfl
  | succ n ih =>
    intro attempt
    cases hc : call attempt with
    | ok lst =>
      right
      exact ⟨attempt, by simp only [attemptLoop, hc]⟩
    | error e =>
      simp only [attemptLoop, hc]
      by_cases hn : n = 0
      · subst hn
        simp
      · rw [if_neg hn]
        exact ih (attempt + 1)

theorem enrichLoop_outrange (oracle : OracleFn) (total : Nat)
    (hor : ∀ b m a lst, oracle b m a = .ok lst →
      ∀ it ∈ lst, ∀ n, it.id = some n → ¬(0 ≤ n ∧ n < (total : Int))) :
    ∀ (batches : List (List OfferRecord)) (bidx offset : Nat)
      (cur : List OfferRecord) (succ : Nat),
      (enrichLoop oracle total batches bidx offset cur succ).1 = cur ∧
      (enrichLoop oracle total batches bidx offset cur succ).2.2.2 = succ := by
  intro batches
  induction batches with
  | nil => intro bidx offset cur succ; exact ⟨rfl, rfl⟩
  | cons hd rest ih =>
    intro bidx offset cur succ
    have hmerge : mergeItems total (cur, succ)
        (process_batch oracle hd bidx offset).1 = (cur, succ) := by
      rcases attemptLoop_result
          (oracle bidx (prepare_batch_for_llm hd offset)) max_retries 0 with
        h1 | ⟨a, ha⟩
      · have hpb : (process_batch oracle hd bidx offset).1 = [] := h1
        rw [hpb]
        rfl
      · exact mergeItems_skip total _ _
          (fun it hit n hid => hor bidx _ a _ ha it hit n hid)
    simp only [enrichLoop, hmerge]
    exact ⟨(ih _ _ _ _).1, (ih _ _ _ _).2⟩

/-- A result whose id (9999) is outside every batch handled here. -/
def item9999 : EnrichedItem := { id := some 9999 }

/-- An Oracle returning only the out-of-range result. -/
def oracle9999 : OracleFn := fun _ _ _ => .ok [item9999]

/-- A result with a valid id but none of the required enrichment fields. -/
def itemBare : EnrichedItem := { id := some 0 }

/-- An Oracle returning the field-less result. -/
def oracleBare : OracleFn := fun _ _ _ => .ok [itemBare]

/-- C5 counterexample: a result with in-range id but missing every required
enrichment field is not discarded — the merge updates the record, making
the five enrichment keys present with Python `None` values, counts one
success, and the changed record even survives the final filter with a null
hash.  The claim says such a result leaves every record unchanged. -/
theorem enrich_merge_missing_fields :
    (enrich_data_with_llm [sampleRecord] 100 oracleBare).finalRecords =
      [updateRecord sampleRecord itemBare] ∧
    updateRecord sampleRecord itemBare ≠ sampleRecord ∧
    (enrich_data_with_llm [sampleRecord] 100 oracleBare).successCount = 1 := by
  decide

/-- C5 (amended): during the merge a result with a missing id or an id
outside `[0, len(records))` is discarded, raising nothing and leaving every
record and the success count unchanged (also across a whole run: an Oracle
returning only out-of-range ids leaves the record list untouched); a result
with an in-range id always updates the record at that index in place,
setting the five enrichment keys to the result's values — and to null, not
discarding, where the result lacks a required field; concretely a run whose
Oracle answers only id 9999 over 3 records leaves all 3 records unchanged
with zero successes. -/
theorem enrich_merge_spec :
    (∀ (offers : List OfferRecord) (succ : Nat) (it : EnrichedItem),
      (it.id = none → applyItem offers.length (offers, succ) it =
        (offers, succ)) ∧
      (∀ n : Int, it.id = some n → ¬(0 ≤ n ∧ n < (offers.length : Int)) →
        applyItem offers.length (offers, succ) it = (offers, succ)) ∧
      (∀ n : Int, it.id = some n → 0 ≤ n → n < (offers.length : Int) →
        applyItem offers.length (offers, succ) it =
          (updateAt offers n.toNat it, succ + 1))) ∧
    (∀ (o : OfferRecord) (it : EnrichedItem),
      (updateRecord o it).productHash = some it.productHash ∧
      (updateRecord o it).category = some it.category ∧
      (updateRecord o it).searchTags = some it.searchTags ∧
      (updateRecord o it).offerStartDate = some it.offerStartDate ∧
      (updateRecord o it).offerEndDate = some it.offerEndDate ∧
      (updateRecord o it).productName = o.productName ∧
      (updateRecord o it).storeName = o.storeName) ∧
    (∀ (offers : List OfferRecord) (batchSize : Nat) (oracle : OracleFn),
      0 < batchSize →
      (∀ b m a lst, oracle b m a = .ok lst →
        ∀ it ∈ lst, ∀ n, it.id = some n →
          ¬(0 ≤ n ∧ n < (offers.length : Int))) →
      (enrich_data_with_llm offers batchSize oracle).finalRecords = offers ∧
      (enrich_data_with_llm offers batchSize oracle).successCount = 0) ∧
    ((enrich_data_with_llm (List.replicate 3 sampleRecord) BATCH_SIZE
        oracle9999).finalRecords = List.replicate 3 sampleRecord ∧
     (enrich_data_with_llm (List.replicate 3 sampleRecord) BATCH_SIZE
        oracle9999).successCount = 0) := by
  refine ⟨?_, ?_, ?_, by decide, by decide⟩
  · intro offers succ it
    have heq : ∀ n : Int, it.id = some n →
        applyItem offers.length (offers, succ) it =
          if 0 ≤ n ∧ n < (offers.length : Int) then
            (updateAt offers n.toNat it, succ + 1)
          else (offers, succ) := by
      intro n hid
      unfold applyItem
      rw [hid]
    refine ⟨?_, ?_, ?_⟩
    · intro hid
      unfold applyItem
      rw [hid]
    · intro n hid hn
      rw [heq n hid, if_neg hn]
    · intro n hid h0 hlt
      rw [heq n hid, if_pos ⟨h0, hlt⟩]
  · intro o it
    exact ⟨rfl, rfl, rfl, rfl, rfl, rfl, rfl⟩
  · intro offers batchSize oracle hs hor
    have h := enrichLoop_outrange oracle offers.length hor
      (chunksList batchSize offers) 1 0 offers 0
    exact ⟨h.1, h.2⟩

/-- Witness for C5's amended theorem: over two records, an Oracle that only
ever returns id 9999 changes nothing and counts zero successes. -/
theorem enrich_merge_spec_witness :
    (enrich_data_with_llm (List.replicate 2 sampleRecord) 100
        oracle9999).finalRecords = List.replicate 2 sampleRecord ∧
    (enrich_data_with_llm (List.replicate 2 sampleRecord) 100
        oracle9999).successCount = 0 :=
  enrich_merge_spec.2.2.1 (List.replicate 2 sampleRecord) 100 oracle9999
    (by decide)
    (by
      intro b m a lst h it hit n hid
      cases h
      simp only [List.mem_singleton] at hit
      subst hit
      simp only [item9999] at hid
      cases hid
      decide)

/-! ## Extraction post-processing (new_gem_catego_2.py, lines 27-140)

`post_process_data` refines the model's raw JSON: it attaches a
`productHash` slug, the offer dates, and numeric prices to every offer.
`datetime.strptime` is modelled by the exact alternation-with-backtracking
regexes CPython's `_strptime` compiles (`%Y` = four digits, `%m` =
`1[0-2]|0[1-9]|[1-9]`, `%d` = `3[01]|[12]\d|0[1-9]|[1-9]`), followed by
calendar validation; `float(...)` values are carried as their literal text
(a digits-and-dots literal is valid when it has at least one digit and at
most one dot). -/

/-- One category announcement (passed through untouched). -/
structure Announcement where
  announcementType : Option String := none
  categoryAffected : Option String := none
  discountValue : Option String := none
  details : Option String := none
  availabilityDateRange : Option String := none
deriving DecidableEq, Repr

/-- The raw/final JSON document shape. -/
structure RawFlyerData where
  productOffers : List OfferRecord
  categoryAnnouncements : List Announcement
deriving DecidableEq, Repr

/-- Model of `str.replace(pat, repl)` (all occurrences, left to right), with
fuel for structural recursion; `s.length` fuel suffices for the non-empty
patterns used here. -/
def replaceFuel (pat repl : List Char) : Nat → List Char → List Char
  | 0, s => s
  | _ + 1, [] => []
  | fuel + 1, c :: rest =>
    if (!pat.isEmpty) && pat.isPrefixOf (c :: rest) then
      repl ++ replaceFuel pat repl fuel ((c :: rest).drop pat.length)
    else c :: replaceFuel pat repl fuel rest

/-- Model of `str.replace`. -/
def pyReplace (s pat repl : List Char) : List Char := replaceFuel pat repl s.length s

/-- Model of `str.split(sep)` for a one-character separator. -/
def splitChar (sep : Char) : List Char → List (List Char)
  | [] => [[]]
  | c :: rest =>
    if c = sep then [] :: splitChar sep rest
    else
      match splitChar sep rest with
      | [] => [[c]]
      | h :: t => (c :: h) :: t

/-- Model of `clean_price(price_str)`: `None` unless the input is a string
other than `"N/A"` with non-blank content whose cleaned form starts with a
digits-and-dots run that is a valid float literal; the matched literal text
stands in for the float value. -/
def clean_price (price : Option String) : Option String :=
  match price with
  | none => none
  | some p =>
    if p = ("N/A") ∨ pyStrip p.data = [] then none
    else
      let cleaned := pyStrip (pyReplace (pyReplace (pyReplace (pyReplace
        p.data [('€')] []) [('$')] []) [('S'), ('f'), ('r')] []) [(',')] [('.')])
      let pref := cleaned.takeWhile (fun c => c.isDigit || c = '.')
      if pref = [] then none
      else if (pref.any Char.isDigit) &&
          ((pref.filter (fun c => c = '.')).length ≤ 1) then some ⟨pref⟩
      else none

/-- The `%m` alternation `1[0-2]|0[1-9]|[1-9]`, in the engine's preference
order; each entry is (value, remaining input). -/
def monthAlts (cs : List Char) : List (Nat × List Char) :=
  (match cs with
   | '1' :: c :: r =>
     if c = '0' ∨ c = '1' ∨ c = '2' then [(10 + digitVal c, r)] else []
   | _ => []) ++
  (match cs with
   | '0' :: c :: r =>
     if c.isDigit ∧ c ≠ '0' then [(digitVal c, r)] else []
   | _ => []) ++
  (match cs with
   | c :: r => if c.isDigit ∧ c ≠ '0' then [(digitVal c, r)] else []
   | _ => [])

/-- The `%d` alternation `3[01]|[12]\d|0[1-9]|[1-9]`, in preference order. -/
def dayAlts (cs : List Char) : List (Nat × List Char) :=
  (match cs with
   | '3' :: c :: r => if c = '0' ∨ c = '1' then [(30 + digitVal c, r)] else []
   | _ => []) ++
  (match cs with
   | c1 :: c2 :: r =>
     if (c1 = '1' ∨ c1 = '2') ∧ c2.isDigit then
       [(digitVal c1 * 10 + digitVal c2, r)] else []
   | _ => []) ++
  (match cs with
   | '0' :: c :: r =>
     if c.isDigit ∧ c ≠ '0' then [(digitVal c, r)] else []
   | _ => []) ++
  (match cs with
   | c :: r => if c.isDigit ∧ c ≠ '0' then [(digitVal c, r)] else []
   | _ => [])

/-- Model of `datetime.strptime(s, "%Y-%m-%d")`: the first full regex match
fixes the split, then the date constructor validates it (a failure is the
`ValueError` the callers catch). -/
def strptimeYmd (s : String) : Option PyDate :=
  match s.data with
  | y1 :: y2 :: y3 :: y4 :: sep :: rest =>
    if y1.isDigit && y2.isDigit && y3.isDigit && y4.isDigit && sep = '-' then
      let y : Nat := digitVal y1 * 1000 + digitVal y2 * 100 +
        digitVal y3 * 10 + digitVal y4
      match List.findSome? (fun (pm : Nat × List Char) =>
          match pm.2 with
          | '-' :: r3 =>
            List.findSome? (fun (pd : Nat × List Char) =>
              if pd.2 = ([] : List Char) then some (pm.1, pd.1) else none)
              (dayAlts r3)
          | _ => none) (monthAlts rest) with
      | some (m, d) => mkDate (y : Int) (m : Int) (d : Int)
      | none => none
    else none
  | _ => none

/-- Model of `datetime.strptime(s, "%d%m%Y")` on an all-digit string: the
first full match (with backtracking across the `%d` and `%m` alternations)
fixes the (day, month, year) split. -/
def strptimeDMYsplit (cs : List Char) : Option (Nat × Nat × Nat) :=
  List.findSome? (fun (pd : Nat × List Char) =>
    List.findSome? (fun (pm : Nat × List Char) =>
      match pm.2 with
      | a :: b :: c :: d :: [] =>
        if a.isDigit && b.isDigit && c.isDigit && d.isDigit then
          some (pd.1, pm.1,
            digitVal a * 1000 + digitVal b * 100 + digitVal c * 10 + digitVal d)
        else none
      | _ => none) (monthAlts pd.2)) (dayAlts cs)

/-- Terminator class `[\s.\-]` of the start-date regex. -/
def isTermClass (c : Char) : Bool := isPySpace c || c = '.' || c = '-'

/-- Month part of `^(\d{1,2}\.\d{1,2})[\s.\-]`: greedy two digits (which
then require a terminator) falling back to one digit; appends the digits to
the captured day digits. -/
def startDMmonth (dd : List Char) : List Char → Option (List Char)
  | m1 :: m2 :: rest2 =>
    if m1.isDigit && m2.isDigit &&
        (match rest2 with | t :: _ => isTermClass t | [] => false) then
      some (dd ++ [m1, m2])
    else if m1.isDigit && isTermClass m2 then some (dd ++ [m1])
    else none
  | _ => none

/-- Model of `re.search(r'^(\d{1,2}\.\d{1,2})[\s.\-]', s)`: the captured
group with its dot removed (the digits of day and month). -/
def startDM : List Char → Option (List Char)
  | c1 :: c2 :: c3 :: rest =>
    if c1.isDigit && c2.isDigit && c3 = '.' then
      match startDMmonth [c1, c2] rest with
      | some r => some r
      | none =>
        if c2 = '.' then startDMmonth [c1] (c3 :: rest) else none
    else if c1.isDigit && c2 = '.' then startDMmonth [c1] (c3 :: rest)
    else none
  | _ => none

/-- Model of `parse_start_date(date_range_str, end_date_str)`. -/
def parse_start_date (date_range : Option String) (end_date_str : String) :
    String :=
  match date_range with
  | none => end_date_str
  | some dr =>
    if dr = ("") ∨ dr = ("N/A") ∨ end_date_str = ("") then end_date_str
    else
      match strptimeYmd end_date_str with
      | none => end_date_str
      | some ctx =>
        match startDM (pyStrip dr.data) with
        | none => end_date_str
        | some dm =>
          match strptimeDMYsplit (dm ++ (toString ctx.year.toNat).data) with
          | none => end_date_str
          | some (d, m, y) =>
            match mkDate (y : Int) (m : Int) (d : Int) with
            | none => end_date_str
            | some dt => formatDate dt

/-- Rendering of `offer.get('category', '')` into the f-string: a missing
key gives the default, a key holding `None` prints as `None`. -/
def pyGetStr2 (v : Option (Option String)) : String :=
  match v with
  | none => ""
  | some none => ("None")
  | some (some str) => str

namespace NewGemCatego

/-- Model of `slugify(text)` from new_gem_catego_2.py: lower-case, strip,
delete characters outside `\w`, whitespace and hyphen, replace each maximal
`[-\s]+` run by one underscore, truncate to 60. -/
def sub2 : List Char → Bool → List Char
  | [], _ => []
  | c :: rest, inRun =>
    if c = '-' || isPySpace c then
      (if inRun then sub2 rest true else '_' :: sub2 rest true)
    else c :: sub2 rest false

/-- The productHash slug. -/
def slugify (text : String) : String :=
  ⟨(sub2 ((pyStrip (text.data.map pyLower)).filter
      (fun c => isWordChar c || isPySpace c || c = '-')) false).take 60⟩

/-- The `product_key` f-string
`f"{productName}|{packageSize}|{category}"` built with `.get` defaults. -/
def product_key (o : OfferRecord) : String :=
  (o.productName.getD ("")) ++ ("|") ++ (o.packageSize.getD ("")) ++ ("|") ++
    pyGetStr2 o.category

/-- The per-offer body of the `post_process_data` loop. -/
def processOffer (offer_end_date : String) (o : OfferRecord) : OfferRecord :=
  { o with productHash := some (some (slugify (product_key o))),
           offerEndDate := some (some offer_end_date),
           offerStartDate :=
             some (some (parse_start_date o.availabilityDateRange offer_end_date)),
           currentPriceNumeric := some (clean_price o.currentPrice),
           oldPriceNumeric := some (clean_price o.oldPrice) }

/-- Model of `post_process_data(raw_data, pdf_filename)` with
`datetime.now()` made the explicit `nowStr`: derive the reliable end date
from the filename (`RETAILER_YYYY-MM-DD_TITLE.pdf`), falling back to today,
then enrich every offer; announcements pass through. -/
def post_process_data (raw : RawFlyerData) (pdf_filename nowStr : String) :
    RawFlyerData :=
  let parts := splitChar ('_') pdf_filename.data
  let offer_end_date :=
    if parts.length ≥ 3 then
      match parts[1]? with
      | some p1 =>
        if (strptimeYmd ⟨p1⟩).isSome then (⟨p1⟩ : String) else nowStr
      | none => nowStr
    else nowStr
  { productOffers := raw.productOffers.map (processOffer offer_end_date),
    categoryAnnouncements := raw.categoryAnnouncements }

end NewGemCatego

/-- Concrete raw extraction output for the C10 witness. -/
def rawC10 : RawFlyerData :=
  { productOffers :=
      [{ productName := some ("Milch"), packageSize := some ("1L"),
         category := some (some ("Dairy")) }],
    categoryAnnouncements := [] }

/-- C10: every offer emitted by `post_process_data` carries the
`productHash` key, holding the slug of
`productName|packageSize|category` of the corresponding input offer (the
output is the input list mapped one-to-one); consequently, when such
records are fed to the enricher and every Oracle call fails, the final
filter `'productHash' in offer` retains all of them. -/
theorem post_process_hash_spec :
    ∀ (raw : RawFlyerData) (pdf_filename nowStr : String),
      ((NewGemCatego.post_process_data raw pdf_filename nowStr).productOffers.length =
        raw.productOffers.length) ∧
      (∀ o ∈ (NewGemCatego.post_process_data raw pdf_filename nowStr).productOffers,
        o.productHash.isSome = true ∧
        ∃ o0 ∈ raw.productOffers,
          o.productHash =
            some (some (NewGemCatego.slugify (NewGemCatego.product_key o0)))) ∧
      (∀ (batchSize : Nat) (oracle : OracleFn),
        0 < batchSize →
        (∀ b m a, oracle b m a = .error ()) →
        (enrich_data_with_llm
            (NewGemCatego.post_process_data raw pdf_filename nowStr).productOffers
            batchSize oracle).result =
          (NewGemCatego.post_process_data raw pdf_filename nowStr).productOffers) := by
  intro raw fn nowStr
  refine ⟨by simp [NewGemCatego.post_process_data], ?_, ?_⟩
  · intro o ho
    simp only [NewGemCatego.post_process_data, List.mem_map] at ho
    obtain ⟨o0, ho0, rfl⟩ := ho
    exact ⟨rfl, o0, ho0, rfl⟩
  · intro batchSize oracle hs hfail
    have h := enrichLoop_allfail oracle
      (NewGemCatego.post_process_data raw fn nowStr).productOffers.length hfail
      (chunksList batchSize
        (NewGemCatego.post_process_data raw fn nowStr).productOffers) 1 0
      (NewGemCatego.post_process_data raw fn nowStr).productOffers 0
    show ((enrichLoop oracle _ _ 1 0 _ 0).1).filter _ = _
    rw [h.1, List.filter_eq_self.mpr]
    intro o ho
    simp only [NewGemCatego.post_process_data, List.mem_map] at ho
    obtain ⟨o0, _, rfl⟩ := ho
    rfl

/-- Witness for C10: a concrete post-processed record set fed to an
all-failing enrichment run comes back whole. -/
theorem post_process_hash_spec_witness :
    (enrich_data_with_llm (NewGemCatego.post_process_data rawC10
        ("HOFER_2025-10-26_flugblatt.pdf") ("2025-09-01")).productOffers
      100 failOracle).result =
    (NewGemCatego.post_process_data rawC10
        ("HOFER_2025-10-26_flugblatt.pdf") ("2025-09-01")).productOffers :=
  (post_process_hash_spec rawC10 ("HOFER_2025-10-26_flugblatt.pdf")
    ("2025-09-01")).2.2 100 failOracle (by decide) (fun _ _ _ => rfl)

/-! ## Processed ledger (new_gem_catego_2.py, lines 188-392)

`analyze_pdf_with_gemini_vision` is driven by the outcomes of its external
interactions: PDF conversion, then per page-chunk the upload/extraction
call (which may raise) and the JSON parse of the response (which may fail —
the source logs the failure and `continue`s).  File writes are assumed to
succeed. -/

/-- Outcome of one page chunk of a PDF. -/
inductive ChunkOutcome where
  | raiseAPI : ChunkOutcome
  | badJson : ChunkOutcome
  | okData : RawFlyerData → ChunkOutcome
deriving DecidableEq

/-- Outcome of the external interactions for one PDF. -/
inductive PdfOutcome where
  | convertFail : PdfOutcome
  | pages : List ChunkOutcome → PdfOutcome
deriving DecidableEq

/-- The chunk loop: a raising API call aborts the whole analysis (outer
`except` → failure); a chunk whose response fails to parse is skipped with
a `continue` — its records are simply lost; successful chunks are
concatenated in order. -/
def collectChunks : List ChunkOutcome → Option RawFlyerData
  | [] => some ⟨[], []⟩
  | .raiseAPI :: _ => none
  | .badJson :: rest => collectChunks rest
  | .okData d :: rest =>
    match collectChunks rest with
    | none => none
    | some acc =>
      some ⟨d.productOffers ++ acc.productOffers,
        d.categoryAnnouncements ++ acc.categoryAnnouncements⟩

/-- Model of `analyze_pdf_with_gemini_vision`: `false` on conversion
failure or a raising chunk call, otherwise post-process whatever chunks
parsed and save it — returning `true` even when some chunks were lost to
JSON-parse failures. -/
def analyze_pdf_with_gemini_vision (outcome : PdfOutcome)
    (pdf_filename nowStr : String) : Bool × Option RawFlyerData :=
  match outcome with
  | .convertFail => (false, none)
  | .pages chunks =>
    match collectChunks chunks with
    | none => (false, none)
    | some combined =>
      (true, some (NewGemCatego.post_process_data combined pdf_filename nowStr))

/-- Model of the loop of `process_active_flyers` over the discovered PDFs
with the loaded log: already-logged files are skipped outright; otherwise
the file is analyzed and added to the in-memory set exactly on success
(appending models `set.add` of an element already checked absent).  Returns
the final log (persisted once at the end) and the list of files for which
any Oracle interaction happened. -/
def process_active_flyers (nowStr : String) :
    List (String × PdfOutcome) → List String → List String × List String
  | [], log => (log, [])
  | (name, oc) :: rest, log =>
    if name ∈ log then process_active_flyers nowStr rest log
    else
      let success := (analyze_pdf_with_gemini_vision oc name nowStr).1
      let newLog := if success then log ++ [name] else log
      let r := process_active_flyers nowStr rest newLog
      (r.1, name :: r.2)

/-- C7 counterexample: a PDF whose single page chunk fails JSON parsing is
nevertheless logged as processed — the run saves an empty extraction for it
and adds it to the ledger, although no record of the artifact was
extracted, let alone enriched. -/
theorem ledger_logs_failed_chunk :
    (process_active_flyers ("2025-09-01")
      [(("f.pdf"), PdfOutcome.pages [ChunkOutcome.badJson])] []).1 = [("f.pdf")] ∧
    (analyze_pdf_with_gemini_vision (PdfOutcome.pages [ChunkOutcome.badJson])
        ("f.pdf") ("2025-09-01")).2 =
      some (NewGemCatego.post_process_data ⟨[], []⟩ ("f.pdf") ("2025-09-01")) := by
  exact ⟨rfl, rfl⟩

/-- C7 (amended): an artifact is in the ledger saved at the end of the run
iff it was already in the loaded ledger or some occurrence of it among the
scanned PDFs analyzed successfully — where success means the PDF converted
and no chunk's Oracle call raised; chunks whose responses fail JSON parsing
are skipped and do not prevent the artifact from being logged.  Artifacts
already in the loaded ledger are skipped without any Oracle interaction. -/
theorem process_active_flyers_spec :
    ∀ (nowStr : String) (pdfs : List (String × PdfOutcome)) (log : List String),
      (∀ name, name ∈ (process_active_flyers nowStr pdfs log).1 ↔
        (name ∈ log ∨ ∃ oc, (name, oc) ∈ pdfs ∧
          (analyze_pdf_with_gemini_vision oc name nowStr).1 = true)) ∧
      (∀ name ∈ log, name ∉ (process_active_flyers nowStr pdfs log).2) := by
  intro nowStr pdfs
  induction pdfs with
  | nil =>
    intro log
    constructor
    · intro name
      simp [process_active_flyers]
    · intro name _ hmem
      simp [process_active_flyers] at hmem
  | cons hd rest ih =>
    obtain ⟨m, oc⟩ := hd
    intro log
    by_cases hm : m ∈ log
    · have heq : process_active_flyers nowStr ((m, oc) :: rest) log =
          process_active_flyers nowStr rest log := by
        simp [process_active_flyers, hm]
      rw [heq]
      constructor
      · intro name
        rw [(ih log).1 name]
        constructor
        · rintro (h | ⟨oc2, h2, ha⟩)
          · exact Or.inl h
          · exact Or.inr ⟨oc2, List.mem_cons_of_mem _ h2, ha⟩
        · rintro (h | ⟨oc2, h2, ha⟩)
          · exact Or.inl h
          · rcases List.mem_cons.mp h2 with h3 | h3
            · cases h3
              exact Or.inl hm
            · exact Or.inr ⟨oc2, h3, ha⟩
      · exact (ih log).2
    · cases hs : (analyze_pdf_with_gemini_vision oc m nowStr).1 with
      | true =>
        have heq : (process_active_flyers nowStr ((m, oc) :: rest) log).1 =
            (process_active_flyers nowStr rest (log ++ [m])).1 := by
          simp [process_active_flyers, hm, hs]
        have heq2 : (process_active_flyers nowStr ((m, oc) :: rest) log).2 =
            m :: (process_active_flyers nowStr rest (log ++ [m])).2 := by
          simp [process_active_flyers, hm, hs]
        constructor
        · intro name
          rw [heq, (ih (log ++ [m])).1 name]
          constructor
          · rintro (h | ⟨oc2, h2, ha⟩)
            · rcases List.mem_append.mp h with h3 | h3
              · exact Or.inl h3
              · simp only [List.mem_singleton] at h3
                subst h3
                exact Or.inr ⟨oc, List.mem_cons_self _ _, hs⟩
            · exact Or.inr ⟨oc2, List.mem_cons_of_mem _ h2, ha⟩
          · rintro (h | ⟨oc2, h2, ha⟩)
            · exact Or.inl (List.mem_append.mpr (Or.inl h))
            · rcases List.mem_cons.mp h2 with h3 | h3
              · cases h3
                exact Or.inl (List.mem_append.mpr (Or.inr (by simp)))
              · exact Or.inr ⟨oc2, h3, ha⟩
        · intro name hname
          rw [heq2]
          intro hmem
          rcases List.mem_cons.mp hmem with h3 | h3
          · subst h3
            exact hm hname
          · exact (ih (log ++ [m])).2 name
              (List.mem_append.mpr (Or.inl hname)) h3
      | false =>
        have heq : (process_active_flyers nowStr ((m, oc) :: rest) log).1 =
            (process_active_flyers nowStr rest log).1 := by
          simp [process_active_flyers, hm, hs]
        have heq2 : (process_active_flyers nowStr ((m, oc) :: rest) log).2 =
            m :: (process_active_flyers nowStr rest log).2 := by
          simp [process_active_flyers, hm, hs]
        constructor
        · intro name
          rw [heq, (ih log).1 name]
          constructor
          · rintro (h | ⟨oc2, h2, ha⟩)
            · exact Or.inl h
            · exact Or.inr ⟨oc2, List.mem_cons_of_mem _ h2, ha⟩
          · rintro (h | ⟨oc2, h2, ha⟩)
            · exact Or.inl h
            · rcases List.mem_cons.mp h2 with h3 | h3
              · cases h3
                rw [hs] at ha
                cases ha
              · exact Or.inr ⟨oc2, h3, ha⟩
        · intro name hname
          rw [heq2]
          intro hmem
          rcases List.mem_cons.mp hmem with h3 | h3
          · subst h3
            exact hm hname
          · exact (ih log).2 name hname h3

/-- Witness for C7's amended theorem: an artifact already in the loaded
ledger is skipped with no Oracle interaction. -/
theorem process_active_flyers_spec_witness :
    ("done.pdf") ∉ (process_active_flyers ("2025-09-01")
      [(("done.pdf"), PdfOutcome.pages [ChunkOutcome.okData ⟨[], []⟩])]
      [("done.pdf")]).2 :=
  (process_active_flyers_spec ("2025-09-01")
    [(("done.pdf"), PdfOutcome.pages [ChunkOutcome.okData ⟨[], []⟩])]
    [("done.pdf")]).2 ("done.pdf") (by simp)

end OcrDiscount
